import Mathlib

/-!
Verification of the Markdown ⇄ ADF conversion core of the jira-mcp-server
repository.  The definitions below are a shallow embedding of the JavaScript
functions `parseInlineContent`, `addBulletItem`, `addOrderedItem`,
`createADFDocument`, `inlineNodesToText`, `blockNodeToText` and `adfToText`.

JavaScript values are modelled by the inductive type `JVal` (JSON-like
values); text is modelled as `List Char` (one entry per code point, which
coincides with the JS string for the ASCII inputs exercised here); a thrown
exception is modelled as `Except.error ()`.  The JS regular expression in
`parseInlineContent` is compiled by hand into deterministic matchers; the
backtracking behaviour of the regex engine (greedy groups that shrink from
the right) is reproduced exactly, see the comments on each matcher.
-/

namespace McpJira

/-- A JavaScript (JSON-like) runtime value.  `null` also stands for
`undefined` where the distinction is irrelevant to the modelled code
(both are falsy and both throw on member access). -/
inductive JVal where
  | null : JVal
  | str : List Char → JVal
  | num : Int → JVal
  | bool : Bool → JVal
  | arr : List JVal → JVal
  | obj : List (String × JVal) → JVal

/-- Shorthand: a JS string value from a Lean string literal. -/
def S (s : String) : JVal := .str s.data

/-- JS truthiness. -/
def truthy : JVal → Bool
  | .null => false
  | .str s => !s.isEmpty
  | .num n => n != 0
  | .bool b => b
  | .arr _ => true
  | .obj _ => true

/-- First-field lookup, as JS object property access (objects built by the
modelled code never repeat a key). -/
def getField : List (String × JVal) → String → Option JVal
  | [], _ => none
  | (k, v) :: rest, key => if k = key then some v else getField rest key

/-- `v.key` for a non-null `v`: property access on a non-object primitive
yields `undefined` (`none`); on an object it is field lookup. -/
def jsGet (v : JVal) (key : String) : Option JVal :=
  match v with
  | .obj fields => getField fields key
  | _ => none

/-- `a?.key` where `a` is the (possibly `undefined`) result of a previous
access: short-circuits to `undefined` on `null`/`undefined`. -/
def optChain (a : Option JVal) (key : String) : Option JVal :=
  match a with
  | some .null => none
  | some v => jsGet v key
  | none => none

/-- `a || b` where `a` may be `undefined` (`none`). -/
def jsOr (a : Option JVal) (b : JVal) : JVal :=
  match a with
  | some v => if truthy v then v else b
  | none => b

/-- Turn an optional (possibly `undefined`) value into a `JVal`, for
positions where the JS code passes the raw access result on (e.g.
`inlineNodesToText(node.content)`). -/
def getOr (a : Option JVal) : JVal := a.getD .null

/-- Replace the value stored under `key`, keeping field order (JS property
assignment on an existing key). -/
def setField : List (String × JVal) → String → JVal → List (String × JVal)
  | [], key, v => [(key, v)]
  | (k, w) :: rest, key, v =>
    if k = key then (key, v) :: rest else (k, w) :: setField rest key v

/-- JS string coercion `String(v)` (as used by template literals and
`Array.prototype.join`). -/
def jsToChars : JVal → List Char
  | .null => "null".data
  | .str s => s
  | .num n => (toString n).data
  | .bool b => (if b then "true" else "false").data
  | .arr l => jsToCharsList l
  | .obj _ => "[object Object]".data
where
  /-- `Array.prototype.toString`: elements stringified and comma-joined,
  with `null`/`undefined` elements contributing the empty string. -/
  jsToCharsList : List JVal → List Char
  | [] => []
  | [.null] => []
  | [v] => jsToChars v
  | .null :: rest => ',' :: jsToCharsList rest
  | v :: rest => jsToChars v ++ ',' :: jsToCharsList rest

/-- Left-to-right accumulation of decimal digits. -/
def digitsToNatAux : Nat → List Char → Option Nat
  | acc, [] => some acc
  | acc, c :: rest =>
    if c.isDigit then digitsToNatAux (acc * 10 + (c.toNat - '0'.toNat)) rest
    else none

/-- All-decimal-digit run to its numeric value (`none` on any non-digit
or on the empty run). -/
def digitsToNat : List Char → Option Nat
  | [] => none
  | l => digitsToNatAux 0 l

/-- JS whitespace test (`\s` / `trim`), restricted to the ASCII whitespace
relevant here. -/
def isWs (c : Char) : Bool := c.isWhitespace

/-- `String.prototype.trim`. -/
def trimChars (s : List Char) : List Char :=
  ((s.dropWhile isWs).reverse.dropWhile isWs).reverse

/-- JS numeric coercion `Number(v)`, `none` standing for `NaN`, for the
integral values that can reach `'#'.repeat(level)`. -/
def jsToNum : JVal → Option Int
  | .null => some 0
  | .bool b => some (if b then 1 else 0)
  | .num n => some n
  | .str s =>
    let t := trimChars s
    if t.isEmpty then some 0
    else
      match t with
      | '-' :: ds => (digitsToNat ds).map (fun n => -(n : Int))
      | '+' :: ds => (digitsToNat ds).map (fun n => (n : Int))
      | ds => (digitsToNat ds).map (fun n => (n : Int))
  | .arr [] => some 0
  | .arr [v] => jsToNum v
  | .arr _ => none
  | .obj _ => none

/-- `content.split('\n')`: split at every newline, keeping empty pieces. -/
def splitLines : List Char → List (List Char)
  | [] => [[]]
  | c :: cs =>
    match splitLines cs with
    | [] => [[]]
    | l :: ls => if c = '\n' then [] :: l :: ls else (c :: l) :: ls

/-- `parts.join('\n')`. -/
def joinNL : List (List Char) → List Char
  | [] => []
  | [l] => l
  | l :: rest => l ++ '\n' :: joinNL rest

/-- `parts.join(' ')`. -/
def joinSP : List (List Char) → List Char
  | [] => []
  | [l] => l
  | l :: rest => l ++ ' ' :: joinSP rest

/-- `parts.join(' | ')`. -/
def joinBar : List (List Char) → List Char
  | [] => []
  | [l] => l
  | l :: rest => l ++ " | ".data ++ joinBar rest

/-- `parts.join('\n\n')`. -/
def joinNL2 : List (List Char) → List Char
  | [] => []
  | [l] => l
  | l :: rest => l ++ "\n\n".data ++ joinNL2 rest

/-!
### The inline tokenizer (`parseInlineContent`)

The JS scan uses one global regex with six alternatives, tried in order at
each position, the engine taking the leftmost match:

`\*\*([^*]+)\*\*` | `~~([^~]+)~~` | `\*([^*]+)\*` |
`\[([^\]]+)\]\(([^)]+)\)` | `\[([^\]]+)\|([^\]]+)\]` | `` `([^`]+)` ``

Each alternative is compiled into a deterministic matcher.  For the first
four and the last, the negated character class makes greedy matching
deterministic (the group can never shrink past its excluded delimiter);
only the pipe-link alternative genuinely backtracks: its first group ends
at the last `|` inside the bracketed run.
-/

/-- `\*\*([^*]+)\*\*` at the head of the input; returns the group and the
rest of the input. -/
def matchStrong : List Char → Option (List Char × List Char)
  | '*' :: '*' :: rest =>
    match rest.span (fun c => c != '*') with
    | ([], _) => none
    | (body, '*' :: '*' :: r2) => some (body, r2)
    | (_, _) => none
  | _ => none

/-- `~~([^~]+)~~` at the head of the input. -/
def matchStrike : List Char → Option (List Char × List Char)
  | '~' :: '~' :: rest =>
    match rest.span (fun c => c != '~') with
    | ([], _) => none
    | (body, '~' :: '~' :: r2) => some (body, r2)
    | (_, _) => none
  | _ => none

/-- `\*([^*]+)\*` at the head of the input. -/
def matchEm : List Char → Option (List Char × List Char)
  | '*' :: rest =>
    match rest.span (fun c => c != '*') with
    | ([], _) => none
    | (body, '*' :: r2) => some (body, r2)
    | (_, _) => none
  | _ => none

/-- `` `([^`]+)` `` at the head of the input. -/
def matchCode : List Char → Option (List Char × List Char)
  | '`' :: rest =>
    match rest.span (fun c => c != '`') with
    | ([], _) => none
    | (body, '`' :: r2) => some (body, r2)
    | (_, _) => none
  | _ => none

/-- `\[([^\]]+)\]\(([^)]+)\)` at the head of the input; returns the text
group, the href group and the rest. -/
def matchMdLink : List Char → Option (List Char × List Char × List Char)
  | '[' :: rest =>
    match rest.span (fun c => c != ']') with
    | ([], _) => none
    | (t, ']' :: '(' :: r2) =>
      match r2.span (fun c => c != ')') with
      | ([], _) => none
      | (h, ')' :: r3) => some (t, h, r3)
      | (_, _) => none
    | (_, _) => none
  | _ => none

/-- Split at the last `|`: `some (before, after)` with `after` free of `|`. -/
def splitLastPipe (l : List Char) : Option (List Char × List Char) :=
  match l.reverse.span (fun c => c != '|') with
  | (afterRev, '|' :: beforeRev) => some (beforeRev.reverse, afterRev.reverse)
  | (_, _) => none

/-- `\[([^\]]+)\|([^\]]+)\]` at the head of the input.  The greedy first
group backtracks from the right, so it ends at the *last* `|` of the
bracketed run; both groups must be non-empty. -/
def matchPipe : List Char → Option (List Char × List Char × List Char)
  | '[' :: rest =>
    match rest.span (fun c => c != ']') with
    | (run, ']' :: r2) =>
      match splitLastPipe run with
      | some ([], _) => none
      | some (_, []) => none
      | some (t, h) => some (t, h, r2)
      | none => none
    | (_, _) => none
  | _ => none

/-- An unmarked text run: `{ type: 'text', text }`. -/
def mkText (t : List Char) : JVal :=
  .obj [("type", S "text"), ("text", .str t)]

/-- A single-mark text run: `{ type: 'text', text, marks: [mark] }`. -/
def mkMarked (t : List Char) (mark : JVal) : JVal :=
  .obj [("type", S "text"), ("text", .str t), ("marks", .arr [mark])]

/-- `{ type: 'strong' }` and friends. -/
def strongMark : JVal := .obj [("type", S "strong")]
def emMark : JVal := .obj [("type", S "em")]
def strikeMark : JVal := .obj [("type", S "strike")]
def codeMark : JVal := .obj [("type", S "code")]
def linkMark (href : List Char) : JVal :=
  .obj [("type", S "link"), ("attrs", .obj [("href", .str href)])]

/-- Try the six regex alternatives, in the engine's order, at the head of
the input; on success returns the emitted inline node and the rest. -/
def tryTok (cs : List Char) : Option (JVal × List Char) :=
  match matchStrong cs with
  | some (b, r) => some (mkMarked b strongMark, r)
  | none =>
  match matchStrike cs with
  | some (b, r) => some (mkMarked b strikeMark, r)
  | none =>
  match matchEm cs with
  | some (b, r) => some (mkMarked b emMark, r)
  | none =>
  match matchMdLink cs with
  | some (t, h, r) => some (mkMarked t (linkMark h), r)
  | none =>
  match matchPipe cs with
  | some (t, h, r) => some (mkMarked t (linkMark h), r)
  | none =>
  match matchCode cs with
  | some (b, r) => some (mkMarked b codeMark, r)
  | none => none

/-- Flush the pending plain-text gap (held in reverse) in front of the
already-built suffix of the token list. -/
def flushPlain (acc : List Char) (parts : List JVal) : List JVal :=
  match acc with
  | [] => parts
  | _ => mkText acc.reverse :: parts

/-- The scan loop: advance one position when no alternative matches,
otherwise flush the pending gap, emit the token and continue after the
match.  `fuel` bounds the recursion; every step consumes at least one
character, so `fuel = cs.length` suffices and the fuel-exhausted branch
is unreachable from `parseInlineContent`. -/
def tokenizeAux : Nat → List Char → List Char → List JVal
  | _, acc, [] => flushPlain acc []
  | 0, acc, rest => flushPlain (rest.reverse ++ acc) []
  | fuel + 1, acc, c :: cs =>
    match tryTok (c :: cs) with
    | some (tok, r) => flushPlain acc (tok :: tokenizeAux fuel [] r)
    | none => tokenizeAux fuel (c :: acc) cs

/-- `parseInlineContent(text)`: empty input gives no nodes, otherwise the
regex scan over the line. -/
def parseInlineContent (text : List Char) : List JVal :=
  match text with
  | [] => []
  | _ => tokenizeAux text.length [] text

/-!
### The block builder (`createADFDocument` and its helpers)
-/

/-- `{ type: 'paragraph', content }`. -/
def mkParagraph (content : List JVal) : JVal :=
  .obj [("type", S "paragraph"), ("content", .arr content)]

/-- `{ type: 'listItem', content: [{ type: 'paragraph', content }] }`. -/
def mkListItem (content : List JVal) : JVal :=
  .obj [("type", S "listItem"), ("content", .arr [mkParagraph content])]

/-- `{ type: 'heading', attrs: { level }, content }`. -/
def mkHeading (level : Nat) (content : List JVal) : JVal :=
  .obj [("type", S "heading"), ("attrs", .obj [("level", .num level)]),
        ("content", .arr content)]

/-- `lastNode.content.push(item)`, functionally: append to the node's
`content` array.  In every reachable call the node carries an array
`content`, so the fall-through arms are never exercised. -/
def pushContent (node : JVal) (item : JVal) : JVal :=
  match node with
  | .obj fields =>
    match getField fields "content" with
    | some (.arr l) => .obj (setField fields "content" (.arr (l ++ [item])))
    | _ => node
  | _ => node

/-- Does the node have the given `type` string? (`lastNode.type === ty`). -/
def hasType (node : JVal) (ty : String) : Bool :=
  match jsGet node "type" with
  | some (.str t) => t == ty.data
  | _ => false

/-- `addBulletItem(nodes, content)`: append a list item to the trailing
bullet list if the last emitted node is one, else start a new bullet
list. -/
def addBulletItem (nodes : List JVal) (content : List JVal) : List JVal :=
  let listItem := mkListItem content
  match nodes.getLast? with
  | some lastNode =>
    if truthy lastNode && hasType lastNode "bulletList" then
      nodes.dropLast ++ [pushContent lastNode listItem]
    else nodes ++ [.obj [("type", S "bulletList"), ("content", .arr [listItem])]]
  | none => nodes ++ [.obj [("type", S "bulletList"), ("content", .arr [listItem])]]

/-- `addOrderedItem(nodes, content)`: the ordered-list counterpart. -/
def addOrderedItem (nodes : List JVal) (content : List JVal) : List JVal :=
  let listItem := mkListItem content
  match nodes.getLast? with
  | some lastNode =>
    if truthy lastNode && hasType lastNode "orderedList" then
      nodes.dropLast ++ [pushContent lastNode listItem]
    else nodes ++ [.obj [("type", S "orderedList"), ("content", .arr [listItem])]]
  | none => nodes ++ [.obj [("type", S "orderedList"), ("content", .arr [listItem])]]

/-- The blockquote run-merge written inline in `createADFDocument`. -/
def addQuoteLine (nodes : List JVal) (content : List JVal) : List JVal :=
  let para := mkParagraph content
  match nodes.getLast? with
  | some lastNode =>
    if truthy lastNode && hasType lastNode "blockquote" then
      nodes.dropLast ++ [pushContent lastNode para]
    else nodes ++ [.obj [("type", S "blockquote"), ("content", .arr [para])]]
  | none => nodes ++ [.obj [("type", S "blockquote"), ("content", .arr [para])]]

/-- `/^h([1-6])\.\s+(.+)/` on the (trimmed) line: level and the second
group.  When everything after the whitespace run is itself whitespace the
greedy `\s+` backtracks one character so that `(.+)` still matches; this
cannot happen on a trimmed line but is reproduced for fidelity. -/
def matchJiraHeading : List Char → Option (Nat × List Char)
  | 'h' :: d :: '.' :: rest =>
    if d ∈ ['1', '2', '3', '4', '5', '6'] then
      match rest.span isWs with
      | ([], _) => none
      | (ws, []) =>
        match ws.getLast? with
        | some c => some (d.toNat - '0'.toNat, [c])
        | none => none
      | (_, r) => some (d.toNat - '0'.toNat, r)
    else none
  | _ => none

/-- `/^(#{1,6})\s+(.+)/` on the (trimmed) line: the hash count and the
second group.  A run of seven or more hashes never matches (every
backtrack of `#{1,6}` still faces a `#` where `\s+` is required). -/
def matchMdHeading (line : List Char) : Option (Nat × List Char) :=
  match line.span (fun c => c = '#') with
  | ([], _) => none
  | (hashes, rest) =>
    if hashes.length ≥ 7 then none
    else
      match rest.span isWs with
      | ([], _) => none
      | (ws, []) =>
        match ws.getLast? with
        | some c => some (hashes.length, [c])
        | none => none
      | (_, r) => some (hashes.length, r)

/-- `/^\d+\.\s+/` on the (trimmed) line; on a match, returns the line with
the matched prefix removed (the effect of `line.replace`). -/
def matchOrdered (line : List Char) : Option (List Char) :=
  match line.span Char.isDigit with
  | ([], _) => none
  | (_, '.' :: r2) =>
    match r2.span isWs with
    | ([], _) => none
    | (_, r3) => some r3
  | (_, _) => none

/-- The fenced-code capture: the body runs until the first following line
whose trim is exactly ```` ``` ```` (or the end of input); the returned
rest skips that closing line. -/
def fenceSplit (rest : List (List Char)) : List (List Char) × List (List Char) :=
  let isClose : List Char → Bool := fun l => trimChars l == "```".data
  (rest.takeWhile (fun l => !isClose l), ((rest.dropWhile (fun l => !isClose l)).drop 1))

/-- Build the codeBlock node: the `content` field is present only when the
captured text is non-empty, the `attrs.language` field only when the
fence-open tag is truthy. -/
def mkCodeBlock (codeText : List Char) (lang : Option (List Char)) : JVal :=
  .obj ([("type", S "codeBlock")]
    ++ (if codeText.isEmpty then []
        else [("content", .arr [.obj [("type", S "text"), ("text", .str codeText)]])])
    ++ (match lang with
        | some l => if l.isEmpty then [] else [("attrs", .obj [("language", .str l)])]
        | none => []))

/-- The line-classification loop of `createADFDocument`: one step per
(trimmed) line, in the source's priority order, with the fenced-code case
consuming its body lines.  The fuel only drives the recursion: every step
consumes at least one line, so `fuel = lines.length` never runs out
(`buildNodesF_fuel_irrelevant` below). -/
def buildNodesF : Nat → List (List Char) → List JVal → List JVal
  | _, [], nodes => nodes
  | 0, _, nodes => nodes
  | fuel + 1, rawLine :: rest, nodes =>
    let line := trimChars rawLine
    if line.isEmpty then buildNodesF fuel rest nodes
    else if let some (lvl, txt) := matchJiraHeading line then
      buildNodesF fuel rest (nodes ++ [mkHeading lvl (parseInlineContent txt)])
    else if let some (lvl, txt) := matchMdHeading line then
      buildNodesF fuel rest (nodes ++ [mkHeading lvl (parseInlineContent txt)])
    else if ("* ".data).isPrefixOf line || ("- ".data).isPrefixOf line then
      buildNodesF fuel rest (addBulletItem nodes (parseInlineContent (line.drop 2)))
    else if let some txt := matchOrdered line then
      buildNodesF fuel rest (addOrderedItem nodes (parseInlineContent txt))
    else if ("> ".data).isPrefixOf line then
      buildNodesF fuel rest (addQuoteLine nodes (parseInlineContent (line.drop 2)))
    else if line == "----".data || line == "---".data then
      buildNodesF fuel rest (nodes ++ [.obj [("type", S "rule")]])
    else if ("```".data).isPrefixOf line then
      let lang : Option (List Char) :=
        if line.length > 3 then some (trimChars (line.drop 3)) else none
      buildNodesF fuel (fenceSplit rest).2
        (nodes ++ [mkCodeBlock (joinNL (fenceSplit rest).1) lang])
    else
      buildNodesF fuel rest (nodes ++ [mkParagraph (parseInlineContent line)])

/-- The loop with its canonical fuel. -/
def buildNodes (lines : List (List Char)) (nodes : List JVal) : List JVal :=
  buildNodesF lines.length lines nodes

/-- `{ type: 'paragraph', content: [] }`. -/
def emptyParagraph : JVal := mkParagraph []

/-- `{ type: 'doc', version: 1, content: nodes }`. -/
def mkDoc (nodes : List JVal) : JVal :=
  .obj [("type", S "doc"), ("version", .num 1), ("content", .arr nodes)]

/-- `createADFDocument(content)`: guard non-strings and the empty string,
then run the line loop, falling back to a single empty paragraph when no
block was produced. -/
def createADFDocument (content : JVal) : JVal :=
  match content with
  | .str s =>
    if s.isEmpty then mkDoc [emptyParagraph]
    else
      let nodes := buildNodes (splitLines s) []
      if nodes.isEmpty then mkDoc [emptyParagraph] else mkDoc nodes
  | _ => mkDoc [emptyParagraph]

/-!
### The renderer (`inlineNodesToText`, `blockNodeToText`, `adfToText`)

A thrown exception is `Except.error ()`.  `blockNodeToText` recurses
through list items, quote paragraphs and table cells; the recursion is
driven by a fuel parameter, with `jsize v` fuel always sufficient because
every recursive call descends to a structural subterm.
-/

/-- Left-to-right effectful map, as JS `Array.prototype.map` with a
callback that may throw (the first exception aborts the whole map). -/
def mapME (f : JVal → Except Unit (List Char)) :
    List JVal → Except Unit (List (List Char))
  | [] => .ok []
  | x :: rest => do
    let r ← f x
    let rs ← mapME f rest
    .ok (r :: rs)

/-- As `mapME`, with the element index passed along (for
`orderedList`'s renumbering). -/
def mapIdxME (f : Nat → JVal → Except Unit (List Char)) :
    Nat → List JVal → Except Unit (List (List Char))
  | _, [] => .ok []
  | i, x :: rest => do
    let r ← f i x
    let rs ← mapIdxME f (i + 1) rest
    .ok (r :: rs)

/-- Left fold that may throw, for the marks loop. -/
def foldME (f : List Char → JVal → Except Unit (List Char)) :
    List Char → List JVal → Except Unit (List Char)
  | t, [] => .ok t
  | t, m :: rest => do
    let t2 ← f t m
    foldME f t2 rest

/-- One wrapping step of the `for (const mark of node.marks)` loop.
Accessing `.type` on a `null` mark throws; non-object marks have an
undefined `type`, matching no switch case. -/
def markWrap (text : List Char) (mark : JVal) : Except Unit (List Char) :=
  match mark with
  | .null => .error ()
  | _ =>
    match jsGet mark "type" with
    | some (.str t) =>
      if t = "strong".data then .ok ("**".data ++ text ++ "**".data)
      else if t = "em".data then .ok ("*".data ++ text ++ "*".data)
      else if t = "strike".data then .ok ("~~".data ++ text ++ "~~".data)
      else if t = "code".data then .ok ("`".data ++ text ++ "`".data)
      else if t = "link".data then
        .ok ("[".data ++ text ++ "](".data
          ++ jsToChars (jsOr (optChain (jsGet mark "attrs") "href") (S ""))
          ++ ")".data)
      else .ok text
    | _ => .ok text

/-- `for (const mark of node.marks)` over a truthy `marks` value: arrays
iterate their elements, strings iterate their characters (each a one-char
string whose `type` is undefined, so the text is unchanged), anything
else is not iterable and throws. -/
def iterMarks (text : List Char) (marks : JVal) : Except Unit (List Char) :=
  match marks with
  | .arr ms => foldME markWrap text ms
  | .str s => foldME markWrap text (s.map (fun c => .str [c]))
  | _ => .error ()

/-- One element of the `inlineNodesToText` map: dispatch on `node.type`.
`node.type` throws on a `null` element. -/
def inlineNodeToText (node : JVal) : Except Unit (List Char) :=
  match node with
  | .null => .error ()
  | _ =>
    match jsGet node "type" with
    | some (.str ty) =>
      if ty = "text".data then
        let text := jsToChars (jsOr (jsGet node "text") (S ""))
        match jsGet node "marks" with
        | some m => if truthy m then iterMarks text m else .ok text
        | none => .ok text
      else if ty = "hardBreak".data then .ok "\n".data
      else if ty = "mention".data then
        .ok ("@".data ++ jsToChars (jsOr (optChain (jsGet node "attrs") "text")
          (jsOr (optChain (jsGet node "attrs") "id") (S ""))))
      else if ty = "inlineCard".data then
        .ok (jsToChars (jsOr (optChain (jsGet node "attrs") "url") (S "")))
      else if ty = "emoji".data then
        .ok (jsToChars (jsOr (optChain (jsGet node "attrs") "shortName") (S "")))
      else .ok []
    | _ => .ok []

/-- `inlineNodesToText(nodes)`: non-arrays render as the empty string,
arrays map each node and join with `''`. -/
def inlineNodesToText (v : JVal) : Except Unit (List Char) :=
  match v with
  | .arr nodes => do
    let parts ← mapME inlineNodeToText nodes
    .ok parts.flatten
  | _ => .ok []

/-- `'#'.repeat(level)` after `node.attrs?.level || 1`: a negative count
throws a `RangeError`, `NaN` coerces to zero. -/
def repeatHash (level : JVal) : Except Unit (List Char) :=
  match jsToNum level with
  | some n => if n < 0 then .error () else .ok (List.replicate n.toNat '#')
  | none => .ok []

mutual
/-- Structural size of a value, used as render fuel. -/
def jsize : JVal → Nat
  | .arr l => 1 + jsizeL l
  | .obj l => 1 + jsizeF l
  | _ => 1

/-- Sum of the sizes of an array's elements. -/
def jsizeL : List JVal → Nat
  | [] => 0
  | v :: r => jsize v + jsizeL r

/-- Sum of the sizes of an object's field values. -/
def jsizeF : List (String × JVal) → Nat
  | [] => 0
  | (_, v) :: r => jsize v + jsizeF r
end

/-- `blockNodeToText(node)`, fuelled.  The fuel-exhausted branch throws;
`renderBlock` below always supplies sufficient fuel, so it is never
reached from `adfToText`. -/
def blockNodeToTextF : Nat → JVal → Except Unit (List Char)
  | 0, _ => .error ()
  | fuel + 1, node =>
    if !truthy node then .ok []
    else
      match jsGet node "type" with
      | some (.str ty) =>
        if ty = "paragraph".data then
          inlineNodesToText (getOr (jsGet node "content"))
        else if ty = "heading".data then do
          let hs ← repeatHash (jsOr (optChain (jsGet node "attrs") "level") (.num 1))
          let inl ← inlineNodesToText (getOr (jsGet node "content"))
          .ok (hs ++ ' ' :: inl)
        else if ty = "bulletList".data then
          match jsOr (jsGet node "content") (.arr []) with
          | .arr items => do
            let rendered ← mapME (fun item =>
              match item with
              | .null => .error ()
              | _ =>
                match jsOr (jsGet item "content") (.arr []) with
                | .arr cs => do
                  let rs ← mapME (blockNodeToTextF fuel) cs
                  .ok ("- ".data ++ joinNL rs)
                | _ => .error ()) items
            .ok (joinNL rendered)
          | _ => .error ()
        else if ty = "orderedList".data then
          match jsOr (jsGet node "content") (.arr []) with
          | .arr items => do
            let rendered ← mapIdxME (fun i item =>
              match item with
              | .null => .error ()
              | _ =>
                match jsOr (jsGet item "content") (.arr []) with
                | .arr cs => do
                  let rs ← mapME (blockNodeToTextF fuel) cs
                  .ok ((toString (i + 1)).data ++ ". ".data ++ joinNL rs)
                | _ => .error ()) 0 items
            .ok (joinNL rendered)
          | _ => .error ()
        else if ty = "blockquote".data then
          match jsOr (jsGet node "content") (.arr []) with
          | .arr cs => do
            let rs ← mapME (fun c => do
              let r ← blockNodeToTextF fuel c
              .ok ("> ".data ++ r)) cs
            .ok (joinNL rs)
          | _ => .error ()
        else if ty = "codeBlock".data then do
          let code ← inlineNodesToText (getOr (jsGet node "content"))
          .ok ("```".data
            ++ jsToChars (jsOr (optChain (jsGet node "attrs") "language") (S ""))
            ++ '\n' :: code ++ "\n```".data)
        else if ty = "rule".data then .ok "---".data
        else if ty = "table".data then
          match jsOr (jsGet node "content") (.arr []) with
          | .arr rows => do
            let rendered ← mapME (fun row =>
              match row with
              | .null => .error ()
              | _ =>
                match jsOr (jsGet row "content") (.arr []) with
                | .arr cells => do
                  let rcells ← mapME (fun cell =>
                    match cell with
                    | .null => .error ()
                    | _ =>
                      match jsOr (jsGet cell "content") (.arr []) with
                      | .arr cc => do
                        let rs ← mapME (blockNodeToTextF fuel) cc
                        .ok (joinSP rs)
                      | _ => .error ()) cells
                  .ok ("| ".data ++ joinBar rcells ++ " |".data)
                | _ => .error ()) rows
            .ok (joinNL rendered)
          | _ => .error ()
        else if ty = "mediaSingle".data then .ok "[media]".data
        else if ty = "mediaGroup".data then .ok "[media]".data
        else inlineNodesToText (getOr (jsGet node "content"))
      | _ => inlineNodesToText (getOr (jsGet node "content"))

/-- `blockNodeToText(node)` with always-sufficient fuel. -/
def renderBlock (node : JVal) : Except Unit (List Char) :=
  blockNodeToTextF (jsize node) node

/-- `adfToText(doc)`: the guard passes strings through and turns every
other non-document value into the empty string; a document maps
`blockNodeToText` over its blocks and joins with blank lines. -/
def adfToText (doc : JVal) : Except Unit (List Char) :=
  if truthy doc && hasType doc "doc" then
    match jsGet doc "content" with
    | some (.arr nodes) => do
      let rs ← mapME renderBlock nodes
      .ok (joinNL2 rs)
    | _ =>
      match doc with
      | .str s => .ok s
      | _ => .ok []
  else
    match doc with
    | .str s => .ok s
    | _ => .ok []

/-- The round trip on a markdown string: parse, then render. -/
def roundTrip (s : List Char) : Except Unit (List Char) :=
  adfToText (createADFDocument (.str s))

/-!
### Predicates used by the claim statements
-/

/-- Number of marks carried by an inline node (marks stored otherwise
than as an array count as none). -/
def marksLen (node : JVal) : Nat :=
  match jsGet node "marks" with
  | some (.arr l) => l.length
  | _ => 0

/-- A mark as the tokenizer emits it. -/
def wfMark (m : JVal) : Bool :=
  match m with
  | .obj [("type", .str t)] =>
    t == "strong".data || t == "em".data || t == "strike".data || t == "code".data
  | .obj [("type", .str t), ("attrs", .obj [("href", .str _)])] => t == "link".data
  | _ => false

/-- An inline node as the tokenizer emits it: a text run with no mark or
with a single mark. -/
def wfInline (v : JVal) : Bool :=
  match v with
  | .obj [("type", .str t), ("text", .str _)] => t == "text".data
  | .obj [("type", .str t), ("text", .str _), ("marks", .arr [m])] =>
    t == "text".data && wfMark m
  | _ => false

/-- A paragraph node as the parser builds it. -/
def wfPara (v : JVal) : Bool :=
  match v with
  | .obj [("type", .str t), ("content", .arr inls)] =>
    t == "paragraph".data && inls.all wfInline
  | _ => false

/-- A list item as the parser builds it: exactly one paragraph. -/
def wfItem (v : JVal) : Bool :=
  match v with
  | .obj [("type", .str t), ("content", .arr [p])] =>
    t == "listItem".data && wfPara p
  | _ => false

/-- The `content` array of a parser-built `codeBlock`: a single unmarked
text node with non-empty text. -/
def wfCodeText (xs : List JVal) : Bool :=
  match xs with
  | [.obj [("type", .str tt), ("text", .str txt)]] =>
    tt == "text".data && !txt.isEmpty
  | _ => false

/-- A block node as the parser builds it (the shapes of §3 of the spec's
data model that the markdown direction can produce). -/
def wfBlock (v : JVal) : Bool :=
  match v with
  | .obj [("type", .str t), ("content", .arr xs)] =>
    if t = "paragraph".data then xs.all wfInline
    else if t = "bulletList".data then !xs.isEmpty && xs.all wfItem
    else if t = "orderedList".data then !xs.isEmpty && xs.all wfItem
    else if t = "blockquote".data then !xs.isEmpty && xs.all wfPara
    else if t = "codeBlock".data then wfCodeText xs
    else false
  | .obj [("type", .str t), ("attrs", .obj [("level", .num l)]),
      ("content", .arr inls)] =>
    t == "heading".data && decide (1 ≤ l) && decide (l ≤ 6) && inls.all wfInline
  | .obj [("type", .str t)] => t == "rule".data || t == "codeBlock".data
  | .obj [("type", .str tc), ("attrs", .obj [("language", .str lg)])] =>
    tc == "codeBlock".data && !lg.isEmpty
  | .obj [("type", .str tc), ("content", .arr xs),
      ("attrs", .obj [("language", .str lg)])] =>
    tc == "codeBlock".data && wfCodeText xs && !lg.isEmpty
  | _ => false

/-- A well-formed document: a `doc` root at version 1 whose content is a
non-empty array of well-formed blocks. -/
def wellFormedDoc (v : JVal) : Bool :=
  match v with
  | .obj [("type", .str t), ("version", .num ver), ("content", .arr nodes)] =>
    t == "doc".data && ver == 1 && !nodes.isEmpty && nodes.all wfBlock
  | _ => false

/-- No inline-span delimiter characters occur in the text: none of the
six regex alternatives can then match anywhere. -/
def noSpanDelims (s : List Char) : Bool :=
  s.all (fun c => !(c == '*' || c == '~' || c == '[' || c == '`'))

/-!
## Shared helper lemmas
-/

theorem exBind_ok (a : α) (f : α → Except Unit β) :
    (Except.ok a >>= f) = f a := rfl

theorem exBind_err (f : α → Except Unit β) :
    ((Except.error () : Except Unit α) >>= f) = .error () := rfl

/-!
## Claim C1: inline mark delimiter order
-/

/-- C1 counterexample: the renderer applies mark delimiters in the order
the marks appear in the run's `marks` array, so a run whose marks are
listed link-then-strong renders as `**[text](href)**`, not as the
claimed fixed-order `[**text**](href)`. -/
theorem c1_counterexample :
    inlineNodesToText (.arr [.obj [("type", S "text"), ("text", S "text"),
      ("marks", .arr [linkMark "href".data, strongMark])]])
      = .ok "**[text](href)**".data ∧
    "**[text](href)**".data ≠ "[**text**](href)".data :=
  ⟨rfl, by decide⟩

/-- C1 amended: mark delimiters are applied in the order the marks appear
in the run's `marks` array, each wrapping the result so far (first listed
mark innermost); in particular a run with marks listed strong-then-link
renders as `[**text**](href)` while link-then-strong renders as
`**[text](href)**`. -/
theorem c1_marks_applied_in_array_order (t href : List Char) :
    inlineNodesToText (.arr [.obj [("type", S "text"), ("text", .str t),
      ("marks", .arr [strongMark, linkMark href])]])
      = .ok ("[**".data ++ t ++ "**](".data ++ href ++ ")".data) ∧
    inlineNodesToText (.arr [.obj [("type", S "text"), ("text", .str t),
      ("marks", .arr [linkMark href, strongMark])]])
      = .ok ("**[".data ++ t ++ "](".data ++ href ++ ")**".data) := by
  constructor <;>
  · cases t <;> cases href <;>
      simp [inlineNodesToText, mapME, inlineNodeToText, jsGet, getField,
        jsOr, truthy, iterMarks, foldME, markWrap, optChain, jsToChars, S,
        strongMark, linkMark, List.flatten, exBind_ok]

/-!
## Claim C2: one-pass fixed point of render ∘ parse
-/

/-- C2 counterexample: for `x = "[a|b|)x]"` one parse/render pass is not
a fixed point: `render(parse(x))` is `[a|b]()x)` but a second pass gives
`[a](b)()x)` (the pipe link's rewritten markdown form no longer parses
as one link, so its text-part pipe form is rewritten again). -/
theorem c2_counterexample :
    roundTrip "[a|b|)x]".data = .ok "[a|b]()x)".data ∧
    roundTrip "[a|b]()x)".data = .ok "[a](b)()x)".data ∧
    "[a](b)()x)".data ≠ "[a|b]()x)".data :=
  ⟨rfl, rfl, by decide⟩

/-- C2 amended: one parse/render pass is a fixed point for the dialect's
lossy normalisations that motivate the property (legacy `h2.` headings,
ordered-list renumbering, `*` bullet markers, `----` rules, pipe links
with parenthesis-free targets) — but not for every input string, as the
counterexample shows. -/
theorem c2_fixed_point_examples :
    (roundTrip "h2. Title".data = .ok "## Title".data ∧
     roundTrip "## Title".data = .ok "## Title".data) ∧
    (roundTrip "3. a\n7. b".data = .ok "1. a\n2. b".data ∧
     roundTrip "1. a\n2. b".data = .ok "1. a\n2. b".data) ∧
    (roundTrip "* x\n\n* y".data = .ok "- x\n- y".data ∧
     roundTrip "- x\n- y".data = .ok "- x\n- y".data) ∧
    (roundTrip "----".data = .ok "---".data ∧
     roundTrip "---".data = .ok "---".data) ∧
    (roundTrip "[t|u]".data = .ok "[t](u)".data ∧
     roundTrip "[t](u)".data = .ok "[t](u)".data) :=
  ⟨⟨rfl, rfl⟩, ⟨rfl, rfl⟩, ⟨rfl, rfl⟩, ⟨rfl, rfl⟩, ⟨rfl, rfl⟩⟩

/-!
## Claim C5: fenced-code capture
-/

/-- C5 counterexample: capture stops at any line whose *trim* is
```` ``` ````, not only at a line that is exactly ```` ``` ````: with the
closing line indented, the claim demands a single code block capturing
everything to end of input, but the parser stops there and a second
(paragraph) block follows. -/
theorem c5_counterexample :
    jsGet (createADFDocument (S "```\na\n   ```\nafter")) "content"
      = some (.arr [mkCodeBlock "a".data none,
          mkParagraph [mkText "after".data]]) ∧
    [mkCodeBlock "a".data none, mkParagraph [mkText "after".data]].length ≠ 1 :=
  ⟨rfl, by decide⟩

/-- C5 amended: fence capture is fail-open and verbatim — once a
fence-open line is seen, subsequent lines are captured without trimming
or inline parsing until a line whose *trimmed form* is ```` ``` ```` (or
end of input), producing one codeBlock whose `text` is omitted when the
body is empty and whose `language` is the fence-open tag when present. -/
theorem c5_fence_capture :
    createADFDocument (S "```js\nx=1\n```")
      = mkDoc [mkCodeBlock "x=1".data (some "js".data)] ∧
    createADFDocument (S "```\nunterminated")
      = mkDoc [mkCodeBlock "unterminated".data none] ∧
    createADFDocument (S "```\n  kept **verbatim**\n```")
      = mkDoc [mkCodeBlock "  kept **verbatim**".data none] ∧
    createADFDocument (S "```\n```") = mkDoc [.obj [("type", S "codeBlock")]] ∧
    createADFDocument (S "```\na\n   ```\nafter")
      = mkDoc [mkCodeBlock "a".data none, mkParagraph [mkText "after".data]] :=
  ⟨rfl, rfl, rfl, rfl, rfl⟩

/-!
## Claim C10: `adfToText` on non-document values
-/

/-- C10: `adfToText` passes a plain string through unchanged, and every
other non-document value — null, numbers, booleans, arrays, objects whose
`type` is not `'doc'` or whose `content` is missing or not an array —
renders as the empty string. -/
theorem c10_adfToText_passthrough :
    (∀ s : List Char, adfToText (.str s) = .ok s) ∧
    adfToText .null = .ok [] ∧
    (∀ n : Int, adfToText (.num n) = .ok []) ∧
    (∀ b : Bool, adfToText (.bool b) = .ok []) ∧
    (∀ l : List JVal, adfToText (.arr l) = .ok []) ∧
    (∀ fields, hasType (.obj fields) "doc" = false →
      adfToText (.obj fields) = .ok []) ∧
    (∀ fields, getField fields "type" = some (S "doc") →
      getField fields "content" = none → adfToText (.obj fields) = .ok []) ∧
    (∀ fields w, getField fields "type" = some (S "doc") →
      getField fields "content" = some w → (∀ xs, w ≠ .arr xs) →
      adfToText (.obj fields) = .ok []) := by
  refine ⟨fun s => ?_, rfl, fun n => ?_, fun b => ?_, fun l => ?_,
    fun fields h => ?_, fun fields h1 h2 => ?_, fun fields w h1 h2 h3 => ?_⟩
  · simp [adfToText, hasType, jsGet]
  · simp [adfToText, hasType, jsGet]
  · simp [adfToText, hasType, jsGet]
  · simp [adfToText, hasType, jsGet]
  · simp [adfToText, truthy, h]
  · simp [adfToText, hasType, jsGet, truthy, h1, h2, S]
  · cases w <;> simp [adfToText, hasType, jsGet, truthy, h1, h2, S]
    exact absurd rfl (h3 _)

/-- C10 witness: a document-typed object with no `content` renders as
the empty string. -/
theorem c10_witness : adfToText (.obj [("type", S "doc")]) = .ok [] :=
  c10_adfToText_passthrough.2.2.2.2.2.2.1 [("type", S "doc")] rfl rfl

/-!
## Claim C4: list-run merging by last-emitted-block lookback
-/

/-- Appending a bullet item when the last emitted block is a bullet list
extends that list in place. -/
theorem addBulletItem_extends_last (ns items c : List JVal) :
    addBulletItem (ns ++ [.obj [("type", S "bulletList"), ("content", .arr items)]]) c
      = ns ++ [.obj [("type", S "bulletList"),
          ("content", .arr (items ++ [mkListItem c]))]] := by
  simp [addBulletItem, List.getLast?_concat, List.dropLast_concat, hasType,
    jsGet, getField, truthy, pushContent, setField, S]

/-- Appending a bullet item when the last emitted block is anything else
starts a fresh bullet list. -/
theorem addBulletItem_starts_new (ns : List JVal) (v : JVal) (c : List JVal)
    (h : hasType v "bulletList" = false) :
    addBulletItem (ns ++ [v]) c
      = (ns ++ [v]) ++ [.obj [("type", S "bulletList"),
          ("content", .arr [mkListItem c])]] := by
  simp [addBulletItem, List.getLast?_concat, List.dropLast_concat, h]

/-- A line that trims to nothing is skipped without touching the emitted
blocks or the run state. -/
theorem buildNodesF_skips_blank (fuel : Nat) (l : List Char)
    (rest : List (List Char)) (nodes : List JVal) (h : trimChars l = []) :
    buildNodesF (fuel + 1) (l :: rest) nodes = buildNodesF fuel rest nodes := by
  simp [buildNodesF, h]

/-- C4: run merging looks only at the previously *emitted* block, never
at line adjacency: same-kind marker lines merge even across blank lines,
and switching kind (or any other intervening block) starts a new list
node.  Concretely `- a\n- b` and `- a\n\n- b` parse to the same single
two-item bulletList, while `- a\n1. b` parses to two separate lists. -/
theorem c4_list_run_merging :
    createADFDocument (S "- a\n- b")
      = mkDoc [.obj [("type", S "bulletList"), ("content",
          .arr [mkListItem [mkText "a".data], mkListItem [mkText "b".data]])]] ∧
    createADFDocument (S "- a\n\n- b") = createADFDocument (S "- a\n- b") ∧
    createADFDocument (S "- a\n1. b")
      = mkDoc [.obj [("type", S "bulletList"), ("content",
            .arr [mkListItem [mkText "a".data]])],
          .obj [("type", S "orderedList"), ("content",
            .arr [mkListItem [mkText "b".data]])]] ∧
    (∀ l rest nodes, trimChars l = [] →
      buildNodes (l :: rest) nodes = buildNodes rest nodes) ∧
    (∀ ns items c,
      addBulletItem (ns ++ [.obj [("type", S "bulletList"), ("content", .arr items)]]) c
        = ns ++ [.obj [("type", S "bulletList"),
            ("content", .arr (items ++ [mkListItem c]))]]) ∧
    (∀ ns v c, hasType v "bulletList" = false →
      addBulletItem (ns ++ [v]) c
        = (ns ++ [v]) ++ [.obj [("type", S "bulletList"),
            ("content", .arr [mkListItem c])]]) ∧
    (∀ ns items c,
      addOrderedItem (ns ++ [.obj [("type", S "orderedList"), ("content", .arr items)]]) c
        = ns ++ [.obj [("type", S "orderedList"),
            ("content", .arr (items ++ [mkListItem c]))]]) ∧
    (∀ ns v c, hasType v "orderedList" = false →
      addOrderedItem (ns ++ [v]) c
        = (ns ++ [v]) ++ [.obj [("type", S "orderedList"),
            ("content", .arr [mkListItem c])]]) := by
  refine ⟨rfl, rfl, rfl, fun l rest nodes h => ?_,
    addBulletItem_extends_last, addBulletItem_starts_new,
    fun ns items c => ?_, fun ns v c h => ?_⟩
  · show buildNodesF (l :: rest).length (l :: rest) nodes
      = buildNodesF rest.length rest nodes
    simpa using buildNodesF_skips_blank rest.length l rest nodes h
  · simp [addOrderedItem, List.getLast?_concat, List.dropLast_concat, hasType,
      jsGet, getField, truthy, pushContent, setField, S]
  · simp [addOrderedItem, List.getLast?_concat, List.dropLast_concat, h]

/-- C4 witness: the blank-line-skip and fresh-list clauses at concrete
inputs. -/
theorem c4_witness :
    buildNodes ["  ".data, "- a".data] [] = buildNodes ["- a".data] [] ∧
    addBulletItem ([] ++ [.obj [("type", S "rule")]]) [mkText "x".data]
      = ([] ++ [.obj [("type", S "rule")]]) ++ [.obj [("type", S "bulletList"),
          ("content", .arr [mkListItem [mkText "x".data]])]] :=
  ⟨c4_list_run_merging.2.2.2.1 "  ".data ["- a".data] [] rfl,
   c4_list_run_merging.2.2.2.2.2.1 [] (.obj [("type", S "rule")])
     [mkText "x".data] rfl⟩

/-!
## Claim C6 (counterexample): single-paragraph round trip
-/

/-- C6 counterexample: `"a\nb"` contains no blank line and no special
marker, yet parses to *two* paragraph blocks, not one. -/
theorem c6_counterexample :
    jsGet (createADFDocument (S "a\nb")) "content"
      = some (.arr [mkParagraph [mkText "a".data],
          mkParagraph [mkText "b".data]]) ∧
    [mkParagraph [mkText "a".data], mkParagraph [mkText "b".data]].length ≠ 1 :=
  ⟨rfl, by decide⟩

/-!
## Claim C7: empty, null and whitespace-only inputs
-/

/-- Lines produced by splitting keep only characters of the input. -/
theorem splitLines_chars (s : List Char) :
    ∀ l ∈ splitLines s, ∀ c ∈ l, c ∈ s := by
  induction s with
  | nil =>
    intro l hl
    simp [splitLines] at hl
    simp [hl]
  | cons a t ih =>
    intro l hl c hc
    rcases hsp : splitLines t with _ | ⟨l0, ls⟩
    · simp [splitLines, hsp] at hl
      simp [hl] at hc
    · by_cases ha : a = '\n'
      · simp [splitLines, hsp, ha] at hl
        rcases hl with hl | hl | hl
        · simp [hl] at hc
        · have := ih l (by simp [hsp, hl]) c hc
          simp [this]
        · have := ih l (by simp [hsp, hl]) c hc
          simp [this]
      · simp [splitLines, hsp, ha] at hl
        rcases hl with hl | hl
        · subst hl
          rcases List.mem_cons.mp hc with hceq | hc2
          · simp [hceq]
          · have := ih l0 (by simp [hsp]) c hc2
            simp [this]
        · have := ih l (by simp [hsp, hl]) c hc
          simp [this]

/-- Trimming an all-whitespace line gives the empty line. -/
theorem trimChars_ws (l : List Char) (h : ∀ c ∈ l, isWs c = true) :
    trimChars l = [] := by
  have h1 : l.dropWhile isWs = [] := by
    rw [List.dropWhile_eq_nil_iff]
    exact fun a ha => h a ha
  simp [trimChars, h1]

/-- The loop emits nothing when every line trims to nothing. -/
theorem buildNodesF_all_blank (fuel : Nat) :
    ∀ (lines : List (List Char)) (nodes : List JVal),
      (∀ l ∈ lines, trimChars l = []) →
      buildNodesF fuel lines nodes = nodes := by
  induction fuel with
  | zero => intro lines nodes _; cases lines <;> simp [buildNodesF]
  | succ f ih =>
    intro lines nodes h
    cases lines with
    | nil => simp [buildNodesF]
    | cons l rest =>
      have h1 : trimChars l = [] := h l (by simp)
      rw [buildNodesF_skips_blank f l rest nodes h1]
      exact ih rest nodes (fun x hx => h x (by simp [hx]))

/-- C7: the empty string, `null`, and every whitespace-only string parse
to a document whose content is exactly one empty paragraph; moreover the
produced document always carries at least one block, whatever the
input. -/
theorem c7_degenerate_inputs :
    createADFDocument (S "") = mkDoc [emptyParagraph] ∧
    createADFDocument .null = mkDoc [emptyParagraph] ∧
    (∀ s : List Char, (∀ c ∈ s, isWs c = true) →
      createADFDocument (.str s) = mkDoc [emptyParagraph]) ∧
    (∀ v : JVal, ∃ nodes, jsGet (createADFDocument v) "content"
      = some (.arr nodes) ∧ nodes ≠ []) := by
  refine ⟨rfl, rfl, fun s h => ?_, fun v => ?_⟩
  · cases s with
    | nil => rfl
    | cons a t =>
      have hb : buildNodes (splitLines (a :: t)) [] = [] := by
        apply buildNodesF_all_blank
        intro l hl
        exact trimChars_ws l (fun c hc => h c (splitLines_chars _ l hl c hc))
      simp [createADFDocument, hb, mkDoc]
  · cases v with
    | str s =>
      by_cases hs : s.isEmpty
      · exact ⟨[emptyParagraph], by simp [createADFDocument, hs, mkDoc, jsGet, getField], by simp⟩
      · by_cases hn : (buildNodes (splitLines s) []).isEmpty = true
        · exact ⟨[emptyParagraph], by simp [createADFDocument, hs, hn, mkDoc, jsGet, getField], by simp⟩
        · refine ⟨buildNodes (splitLines s) [], by simp [createADFDocument, hs, hn, mkDoc, jsGet, getField], ?_⟩
          simpa [List.isEmpty_iff] using hn
    | null => exact ⟨[emptyParagraph], rfl, by simp⟩
    | num n => exact ⟨[emptyParagraph], rfl, by simp⟩
    | bool b => exact ⟨[emptyParagraph], rfl, by simp⟩
    | arr l => exact ⟨[emptyParagraph], rfl, by simp⟩
    | obj fields => exact ⟨[emptyParagraph], rfl, by simp⟩

/-- C7 witness: a whitespace-only input at a concrete value. -/
theorem c7_witness :
    createADFDocument (S " \n\t\n  ") = mkDoc [emptyParagraph] :=
  c7_degenerate_inputs.2.2.1 " \n\t\n  ".data (by decide)

/-!
## Claim C9: the tokenizer only emits single-mark runs
-/

/-- Every token the alternation emits carries exactly one mark. -/
theorem tryTok_marksLen (cs : List Char) (tok : JVal) (r : List Char)
    (h : tryTok cs = some (tok, r)) : marksLen tok ≤ 1 := by
  unfold tryTok at h
  rcases h1 : matchStrong cs with _ | ⟨b1, r1⟩ <;> rw [h1] at h
  · rcases h2 : matchStrike cs with _ | ⟨b2, r2⟩ <;> rw [h2] at h
    · rcases h3 : matchEm cs with _ | ⟨b3, r3⟩ <;> rw [h3] at h
      · rcases h4 : matchMdLink cs with _ | ⟨t4, u4, r4⟩ <;> rw [h4] at h
        · rcases h5 : matchPipe cs with _ | ⟨t5, u5, r5⟩ <;> rw [h5] at h
          · rcases h6 : matchCode cs with _ | ⟨b6, r6⟩ <;> rw [h6] at h
            · exact Option.noConfusion h
            · simp only [Option.some.injEq, Prod.mk.injEq] at h
              obtain ⟨rfl, rfl⟩ := h
              simp [marksLen, mkMarked, jsGet, getField]
          · simp only [Option.some.injEq, Prod.mk.injEq] at h
            obtain ⟨rfl, rfl⟩ := h
            simp [marksLen, mkMarked, jsGet, getField]
        · simp only [Option.some.injEq, Prod.mk.injEq] at h
          obtain ⟨rfl, rfl⟩ := h
          simp [marksLen, mkMarked, jsGet, getField]
      · simp only [Option.some.injEq, Prod.mk.injEq] at h
        obtain ⟨rfl, rfl⟩ := h
        simp [marksLen, mkMarked, jsGet, getField]
    · simp only [Option.some.injEq, Prod.mk.injEq] at h
      obtain ⟨rfl, rfl⟩ := h
      simp [marksLen, mkMarked, jsGet, getField]
  · simp only [Option.some.injEq, Prod.mk.injEq] at h
    obtain ⟨rfl, rfl⟩ := h
    simp [marksLen, mkMarked, jsGet, getField]

/-- Membership in a flushed token list. -/
theorem mem_flushPlain (acc : List Char) (parts : List JVal) (node : JVal)
    (h : node ∈ flushPlain acc parts) :
    node = mkText acc.reverse ∨ node ∈ parts := by
  unfold flushPlain at h
  split at h
  · exact Or.inr h
  · rcases List.mem_cons.mp h with h1 | h1
    · exact Or.inl h1
    · exact Or.inr h1

/-- Plain runs carry no mark. -/
theorem marksLen_mkText (t : List Char) : marksLen (mkText t) = 0 := by
  simp [marksLen, mkText, jsGet, getField]

/-- Every node the scan loop emits carries at most one mark. -/
theorem tokenizeAux_marksLen (fuel : Nat) :
    ∀ (acc cs : List Char) (node : JVal),
      node ∈ tokenizeAux fuel acc cs → marksLen node ≤ 1 := by
  induction fuel with
  | zero =>
    intro acc cs node h
    cases cs with
    | nil =>
      rcases mem_flushPlain _ _ _ h with h1 | h1
      · simp [h1, marksLen_mkText]
      · simp at h1
    | cons c cs' =>
      rcases mem_flushPlain _ _ _ h with h1 | h1
      · simp [h1, marksLen_mkText]
      · simp at h1
  | succ f ih =>
    intro acc cs node h
    cases cs with
    | nil =>
      rcases mem_flushPlain _ _ _ h with h1 | h1
      · simp [h1, marksLen_mkText]
      · simp at h1
    | cons c cs' =>
      rcases htry : tryTok (c :: cs') with _ | ⟨tok, r⟩
      · rw [tokenizeAux, htry] at h
        exact ih (c :: acc) cs' node h
      · rw [tokenizeAux, htry] at h
        rcases mem_flushPlain _ _ _ h with h1 | h1
        · simp [h1, marksLen_mkText]
        · rcases List.mem_cons.mp h1 with h2 | h2
          · exact h2 ▸ tryTok_marksLen _ _ _ htry
          · exact ih [] r node h2

/-- C9: every inline node emitted by the tokenizer carries at most one
mark; multi-mark runs never arise from parsing a line. -/
theorem c9_single_mark_runs (s : List Char) (node : JVal)
    (h : node ∈ parseInlineContent s) : marksLen node ≤ 1 := by
  cases s with
  | nil => simp [parseInlineContent] at h
  | cons c cs => exact tokenizeAux_marksLen _ _ _ node h

/-- C9 witness: the strong run emitted for `**a**`. -/
theorem c9_witness : marksLen (mkMarked "a".data strongMark) ≤ 1 :=
  c9_single_mark_runs "**a**".data _ (by
    rw [show parseInlineContent "**a**".data
      = [mkMarked "a".data strongMark] from rfl]
    simp)

/-!
## Claim C6 (amended statement): single-paragraph round trip
-/

/-- Every regex alternative needs one of the four delimiter characters at
its first position. -/
theorem matchStrong_head (c : Char) (cs : List Char) (h : c ≠ '*') :
    matchStrong (c :: cs) = none := by
  rw [matchStrong.eq_def]
  split
  · rename_i heq
    injection heq with h1 _
    exact absurd h1 h
  · rfl

theorem matchStrike_head (c : Char) (cs : List Char) (h : c ≠ '~') :
    matchStrike (c :: cs) = none := by
  rw [matchStrike.eq_def]
  split
  · rename_i heq
    injection heq with h1 _
    exact absurd h1 h
  · rfl

theorem matchEm_head (c : Char) (cs : List Char) (h : c ≠ '*') :
    matchEm (c :: cs) = none := by
  rw [matchEm.eq_def]
  split
  · rename_i heq
    injection heq with h1 _
    exact absurd h1 h
  · rfl

theorem matchCode_head (c : Char) (cs : List Char) (h : c ≠ '`') :
    matchCode (c :: cs) = none := by
  rw [matchCode.eq_def]
  split
  · rename_i heq
    injection heq with h1 _
    exact absurd h1 h
  · rfl

theorem matchMdLink_head (c : Char) (cs : List Char) (h : c ≠ '[') :
    matchMdLink (c :: cs) = none := by
  rw [matchMdLink.eq_def]
  split
  · rename_i heq
    injection heq with h1 _
    exact absurd h1 h
  · rfl

theorem matchPipe_head (c : Char) (cs : List Char) (h : c ≠ '[') :
    matchPipe (c :: cs) = none := by
  rw [matchPipe.eq_def]
  split
  · rename_i heq
    injection heq with h1 _
    exact absurd h1 h
  · rfl

/-- With no delimiter character at the head, no alternative matches. -/
theorem tryTok_no_delim (c : Char) (cs : List Char)
    (h1 : c ≠ '*') (h2 : c ≠ '~') (h3 : c ≠ '[') (h4 : c ≠ '`') :
    tryTok (c :: cs) = none := by
  unfold tryTok
  rw [matchStrong_head c cs h1, matchStrike_head c cs h2,
    matchEm_head c cs h1, matchMdLink_head c cs h3,
    matchPipe_head c cs h3, matchCode_head c cs h4]

/-- On delimiter-free text the scan accumulates every character into one
plain gap. -/
theorem tokenizeAux_plain (fuel : Nat) :
    ∀ (acc s : List Char), noSpanDelims s = true →
      tokenizeAux fuel acc s = flushPlain (s.reverse ++ acc) [] := by
  induction fuel with
  | zero => intro acc s _; cases s <;> simp [tokenizeAux]
  | succ f ih =>
    intro acc s h
    cases s with
    | nil => simp [tokenizeAux]
    | cons c cs =>
      simp only [noSpanDelims, List.all_cons, Bool.and_eq_true,
        Bool.not_eq_true', Bool.or_eq_false_iff, beq_eq_false_iff_ne] at h
      obtain ⟨⟨⟨⟨hc1, hc2⟩, hc3⟩, hc4⟩, htl⟩ := h
      rw [tokenizeAux, tryTok_no_delim c cs hc1 hc2 hc3 hc4]
      rw [ih (c :: acc) cs (by
        simp only [noSpanDelims]
        exact htl)]
      simp [List.append_assoc]

/-- On non-empty delimiter-free text the tokenizer emits a single plain
run holding the whole line. -/
theorem parseInlineContent_plain (s : List Char) (hnd : noSpanDelims s = true)
    (hne : s ≠ []) : parseInlineContent s = [mkText s] := by
  cases s with
  | nil => exact absurd rfl hne
  | cons c cs =>
    show tokenizeAux (c :: cs).length [] (c :: cs) = _
    rw [tokenizeAux_plain _ [] (c :: cs) hnd]
    rw [flushPlain.eq_def]
    split
    · rename_i heq
      simp at heq
    · simp

/-- A newline-free string splits into a single line. -/
theorem splitLines_no_newline (s : List Char) (h : '\n' ∉ s) :
    splitLines s = [s] := by
  induction s with
  | nil => rfl
  | cons a t ih =>
    have ht : '\n' ∉ t := fun hm => h (by simp [hm])
    have ha : ¬a = '\n' := fun he => h (by simp [he])
    simp [splitLines, ih ht, ha]

/-- Any paragraph holding one plain run renders back to its text. -/
theorem blockF_plain_paragraph (fuel : Nat) (s : List Char) :
    blockNodeToTextF (fuel + 1) (mkParagraph [mkText s]) = .ok s := by
  cases s <;>
    simp [blockNodeToTextF, mkParagraph, mkText, jsGet, getField, truthy,
      getOr, inlineNodesToText, mapME, inlineNodeToText, jsOr, jsToChars, S,
      exBind_ok]

/-- A one-plain-paragraph document renders to exactly that text. -/
theorem adfToText_plain_paragraph (s : List Char) :
    adfToText (mkDoc [mkParagraph [mkText s]]) = .ok s := by
  have hsz : jsize (mkParagraph [mkText s]) = 6 := rfl
  have hrb : renderBlock (mkParagraph [mkText s]) = .ok s := by
    show blockNodeToTextF (jsize (mkParagraph [mkText s])) _ = _
    rw [hsz]
    exact blockF_plain_paragraph 5 s
  simp [adfToText, mkDoc, hasType, jsGet, getField, truthy, mapME, hrb,
    exBind_ok, joinNL2, S]

/-- C6 amended: for every *single-line* string that is non-blank, equal
to its own trim, matches no block-marker pattern and contains no
inline-span delimiter character, the parse yields exactly one paragraph
block and rendering that document returns the string unchanged.  (The
original claim fails for multi-line or padded input, see the
counterexample.) -/
theorem c6_plain_line_round_trip (s : List Char)
    (hne : s ≠ [])
    (htrim : trimChars s = s)
    (hnl : '\n' ∉ s)
    (hjh : matchJiraHeading s = none)
    (hmh : matchMdHeading s = none)
    (hb1 : ("* ".data).isPrefixOf s = false)
    (hb2 : ("- ".data).isPrefixOf s = false)
    (hord : matchOrdered s = none)
    (hq : ("> ".data).isPrefixOf s = false)
    (hr1 : s ≠ "----".data) (hr2 : s ≠ "---".data)
    (hf : ("```".data).isPrefixOf s = false)
    (hnd : noSpanDelims s = true) :
    createADFDocument (.str s) = mkDoc [mkParagraph [mkText s]] ∧
    roundTrip s = .ok s := by
  have hse : s.isEmpty = false := by
    cases s
    · exact absurd rfl hne
    · rfl
  have hrule : (s == "----".data || s == "---".data) = false := by
    simp [hr1, hr2]
  have hparse : createADFDocument (.str s) = mkDoc [mkParagraph [mkText s]] := by
    have hbn : buildNodes [s] [] = [mkParagraph [mkText s]] := by
      show buildNodesF 1 [s] [] = _
      rw [buildNodesF]
      simp only [htrim, hse, Bool.false_eq_true, if_false, hjh, hmh, hb1, hb2,
        Bool.or_self, hord, hq, hrule, hf, if_false]
      rw [parseInlineContent_plain s hnd hne]
      rfl
    have hbn2 : buildNodes (splitLines s) [] = [mkParagraph [mkText s]] := by
      rw [splitLines_no_newline s hnl]
      exact hbn
    simp [createADFDocument, hse, hbn2]
  refine ⟨hparse, ?_⟩
  show adfToText (createADFDocument (.str s)) = .ok s
  rw [hparse]
  exact adfToText_plain_paragraph s

/-- C6 witness: a concrete marker-free line. -/
theorem c6_witness :
    createADFDocument (S "hello, world.")
      = mkDoc [mkParagraph [mkText "hello, world.".data]] ∧
    roundTrip "hello, world.".data = .ok "hello, world.".data :=
  c6_plain_line_round_trip "hello, world.".data (by decide) (by decide)
    (by decide) (by decide) (by decide) (by decide) (by decide) (by decide)
    (by decide) (by decide) (by decide) (by decide) (by decide)

/-!
## Claim C3 (amended statement): render-side degradation
-/

/-- Plain runs are well-formed inline nodes. -/
theorem wfInline_mkText (t : List Char) : wfInline (mkText t) = true := rfl

/-- Every token the alternation emits is a well-formed single-mark run. -/
theorem tryTok_wfInline (cs : List Char) (tok : JVal) (r : List Char)
    (h : tryTok cs = some (tok, r)) : wfInline tok = true := by
  unfold tryTok at h
  rcases h1 : matchStrong cs with _ | ⟨b1, r1⟩ <;> rw [h1] at h
  · rcases h2 : matchStrike cs with _ | ⟨b2, r2⟩ <;> rw [h2] at h
    · rcases h3 : matchEm cs with _ | ⟨b3, r3⟩ <;> rw [h3] at h
      · rcases h4 : matchMdLink cs with _ | ⟨t4, u4, r4⟩ <;> rw [h4] at h
        · rcases h5 : matchPipe cs with _ | ⟨t5, u5, r5⟩ <;> rw [h5] at h
          · rcases h6 : matchCode cs with _ | ⟨b6, r6⟩ <;> rw [h6] at h
            · exact Option.noConfusion h
            · simp only [Option.some.injEq, Prod.mk.injEq] at h
              obtain ⟨rfl, rfl⟩ := h
              rfl
          · simp only [Option.some.injEq, Prod.mk.injEq] at h
            obtain ⟨rfl, rfl⟩ := h
            rfl
        · simp only [Option.some.injEq, Prod.mk.injEq] at h
          obtain ⟨rfl, rfl⟩ := h
          rfl
      · simp only [Option.some.injEq, Prod.mk.injEq] at h
        obtain ⟨rfl, rfl⟩ := h
        rfl
    · simp only [Option.some.injEq, Prod.mk.injEq] at h
      obtain ⟨rfl, rfl⟩ := h
      rfl
  · simp only [Option.some.injEq, Prod.mk.injEq] at h
    obtain ⟨rfl, rfl⟩ := h
    rfl

/-- Every node the scan loop emits is a well-formed inline node. -/
theorem tokenizeAux_wfInline (fuel : Nat) :
    ∀ (acc cs : List Char) (node : JVal),
      node ∈ tokenizeAux fuel acc cs → wfInline node = true := by
  induction fuel with
  | zero =>
    intro acc cs node h
    cases cs with
    | nil =>
      rcases mem_flushPlain _ _ _ h with h1 | h1
      · simp [h1, wfInline_mkText]
      · simp at h1
    | cons c cs' =>
      rcases mem_flushPlain _ _ _ h with h1 | h1
      · simp [h1, wfInline_mkText]
      · simp at h1
  | succ f ih =>
    intro acc cs node h
    cases cs with
    | nil =>
      rcases mem_flushPlain _ _ _ h with h1 | h1
      · simp [h1, wfInline_mkText]
      · simp at h1
    | cons c cs' =>
      rcases htry : tryTok (c :: cs') with _ | ⟨tok, r⟩
      · rw [tokenizeAux, htry] at h
        exact ih (c :: acc) cs' node h
      · rw [tokenizeAux, htry] at h
        rcases mem_flushPlain _ _ _ h with h1 | h1
        · simp [h1, wfInline_mkText]
        · rcases List.mem_cons.mp h1 with h2 | h2
          · exact h2 ▸ tryTok_wfInline _ _ _ htry
          · exact ih [] r node h2

/-- The tokenizer only produces well-formed inline nodes. -/
theorem parseInlineContent_wf (s : List Char) :
    (parseInlineContent s).all wfInline = true := by
  rw [List.all_eq_true]
  intro x hx
  cases s with
  | nil => simp [parseInlineContent] at hx
  | cons c cs => exact tokenizeAux_wfInline _ _ _ x hx

/-- A list item built from well-formed inline content is well-formed. -/
theorem wfItem_mkListItem (c : List JVal) (hc : c.all wfInline = true) :
    wfItem (mkListItem c) = true := hc

/-- A well-formed node typed `bulletList` has the list shape. -/
theorem wfBlock_bullet_shape (v : JVal) (hwf : wfBlock v = true)
    (ht : hasType v "bulletList" = true) :
    ∃ items, v = .obj [("type", S "bulletList"), ("content", .arr items)] ∧
      items.isEmpty = false ∧ items.all wfItem = true := by
  rw [wfBlock.eq_def] at hwf
  split at hwf
  · rename_i t xs
    simp [hasType, jsGet, getField] at ht
    subst ht
    rw [if_neg (by decide), if_pos rfl, Bool.and_eq_true] at hwf
    exact ⟨xs, rfl, by simpa using hwf.1, hwf.2⟩
  · rename_i t l inls
    simp [hasType, jsGet, getField] at ht
    subst ht
    rw [show ("bulletList".data == "heading".data) = false from by decide] at hwf
    simp at hwf
  · rename_i t
    simp [hasType, jsGet, getField] at ht
    subst ht
    rw [show ("bulletList".data == "rule".data) = false from by decide,
      show ("bulletList".data == "codeBlock".data) = false from by decide] at hwf
    simp at hwf
  · rename_i tc lg
    simp [hasType, jsGet, getField] at ht
    subst ht
    rw [show ("bulletList".data == "codeBlock".data) = false from by decide] at hwf
    simp at hwf
  · rename_i tc xs lg
    simp [hasType, jsGet, getField] at ht
    subst ht
    rw [show ("bulletList".data == "codeBlock".data) = false from by decide] at hwf
    simp at hwf
  · simp at hwf

/-- A well-formed node typed `orderedList` has the list shape. -/
theorem wfBlock_ordered_shape (v : JVal) (hwf : wfBlock v = true)
    (ht : hasType v "orderedList" = true) :
    ∃ items, v = .obj [("type", S "orderedList"), ("content", .arr items)] ∧
      items.isEmpty = false ∧ items.all wfItem = true := by
  rw [wfBlock.eq_def] at hwf
  split at hwf
  · rename_i t xs
    simp [hasType, jsGet, getField] at ht
    subst ht
    rw [if_neg (by decide), if_neg (by decide), if_pos rfl,
      Bool.and_eq_true] at hwf
    exact ⟨xs, rfl, by simpa using hwf.1, hwf.2⟩
  · rename_i t l inls
    simp [hasType, jsGet, getField] at ht
    subst ht
    rw [show ("orderedList".data == "heading".data) = false from by decide] at hwf
    simp at hwf
  · rename_i t
    simp [hasType, jsGet, getField] at ht
    subst ht
    rw [show ("orderedList".data == "rule".data) = false from by decide,
      show ("orderedList".data == "codeBlock".data) = false from by decide] at hwf
    simp at hwf
  · rename_i tc lg
    simp [hasType, jsGet, getField] at ht
    subst ht
    rw [show ("orderedList".data == "codeBlock".data) = false from by decide] at hwf
    simp at hwf
  · rename_i tc xs lg
    simp [hasType, jsGet, getField] at ht
    subst ht
    rw [show ("orderedList".data == "codeBlock".data) = false from by decide] at hwf
    simp at hwf
  · simp at hwf

/-- A well-formed node typed `blockquote` has the quote shape. -/
theorem wfBlock_quote_shape (v : JVal) (hwf : wfBlock v = true)
    (ht : hasType v "blockquote" = true) :
    ∃ ps, v = .obj [("type", S "blockquote"), ("content", .arr ps)] ∧
      ps.isEmpty = false ∧ ps.all wfPara = true := by
  rw [wfBlock.eq_def] at hwf
  split at hwf
  · rename_i t xs
    simp [hasType, jsGet, getField] at ht
    subst ht
    rw [if_neg (by decide), if_neg (by decide), if_neg (by decide),
      if_pos rfl, Bool.and_eq_true] at hwf
    exact ⟨xs, rfl, by simpa using hwf.1, hwf.2⟩
  · rename_i t l inls
    simp [hasType, jsGet, getField] at ht
    subst ht
    rw [show ("blockquote".data == "heading".data) = false from by decide] at hwf
    simp at hwf
  · rename_i t
    simp [hasType, jsGet, getField] at ht
    subst ht
    rw [show ("blockquote".data == "rule".data) = false from by decide,
      show ("blockquote".data == "codeBlock".data) = false from by decide] at hwf
    simp at hwf
  · rename_i tc lg
    simp [hasType, jsGet, getField] at ht
    subst ht
    rw [show ("blockquote".data == "codeBlock".data) = false from by decide] at hwf
    simp at hwf
  · rename_i tc xs lg
    simp [hasType, jsGet, getField] at ht
    subst ht
    rw [show ("blockquote".data == "codeBlock".data) = false from by decide] at hwf
    simp at hwf
  · simp at hwf

/-- `addBulletItem` keeps every emitted block well-formed. -/
theorem addBulletItem_wf (ns : List JVal) (c : List JVal)
    (hns : ns.all wfBlock = true) (hc : c.all wfInline = true) :
    (addBulletItem ns c).all wfBlock = true := by
  have hitem := wfItem_mkListItem c hc
  have hnew : wfBlock (.obj [("type", S "bulletList"),
      ("content", .arr [mkListItem c])]) = true := by
    rw [wfBlock.eq_def]
    simp [S, hitem]
  unfold addBulletItem
  rcases hlast : ns.getLast? with _ | last
  · simp [List.all_append, hns, hnew]
  · by_cases hbt : (truthy last && hasType last "bulletList") = true
    · simp only [hbt, if_true, if_pos rfl]
      obtain ⟨ns', rfl⟩ := List.getLast?_eq_some_iff.mp hlast
      rw [Bool.and_eq_true] at hbt
      rw [List.all_append, Bool.and_eq_true] at hns
      obtain ⟨items, heq, hne, hall⟩ :=
        wfBlock_bullet_shape last (by simpa using hns.2) hbt.2
      subst heq
      rw [List.dropLast_concat]
      rw [List.all_append, Bool.and_eq_true]
      refine ⟨hns.1, ?_⟩
      simp only [pushContent, getField, setField, S]
      have hwf2 : wfBlock (.obj [("type", S "bulletList"),
          ("content", .arr (items ++ [mkListItem c]))]) = true := by
        rw [wfBlock.eq_def]
        simp [S, List.all_append, hall, hitem]
      simpa [S] using hwf2
    · have hbt' : (truthy last && hasType last "bulletList") = false := by
        simpa using hbt
      simp only [hbt', Bool.false_eq_true, if_false]
      simp [List.all_append, hns, hnew]

/-- `addOrderedItem` keeps every emitted block well-formed. -/
theorem addOrderedItem_wf (ns : List JVal) (c : List JVal)
    (hns : ns.all wfBlock = true) (hc : c.all wfInline = true) :
    (addOrderedItem ns c).all wfBlock = true := by
  have hitem := wfItem_mkListItem c hc
  have hnew : wfBlock (.obj [("type", S "orderedList"),
      ("content", .arr [mkListItem c])]) = true := by
    rw [wfBlock.eq_def]
    simp [S, hitem]
  unfold addOrderedItem
  rcases hlast : ns.getLast? with _ | last
  · simp [List.all_append, hns, hnew]
  · by_cases hbt : (truthy last && hasType last "orderedList") = true
    · simp only [hbt, if_true, if_pos rfl]
      obtain ⟨ns', rfl⟩ := List.getLast?_eq_some_iff.mp hlast
      rw [Bool.and_eq_true] at hbt
      rw [List.all_append, Bool.and_eq_true] at hns
      obtain ⟨items, heq, hne, hall⟩ :=
        wfBlock_ordered_shape last (by simpa using hns.2) hbt.2
      subst heq
      rw [List.dropLast_concat]
      rw [List.all_append, Bool.and_eq_true]
      refine ⟨hns.1, ?_⟩
      simp only [pushContent, getField, setField, S]
      have hwf2 : wfBlock (.obj [("type", S "orderedList"),
          ("content", .arr (items ++ [mkListItem c]))]) = true := by
        rw [wfBlock.eq_def]
        simp [S, List.all_append, hall, hitem]
      simpa [S] using hwf2
    · have hbt' : (truthy last && hasType last "orderedList") = false := by
        simpa using hbt
      simp only [hbt', Bool.false_eq_true, if_false]
      simp [List.all_append, hns, hnew]

/-- The blockquote merge keeps every emitted block well-formed. -/
theorem addQuoteLine_wf (ns : List JVal) (c : List JVal)
    (hns : ns.all wfBlock = true) (hc : c.all wfInline = true) :
    (addQuoteLine ns c).all wfBlock = true := by
  have hpara : wfPara (mkParagraph c) = true := hc
  have hnew : wfBlock (.obj [("type", S "blockquote"),
      ("content", .arr [mkParagraph c])]) = true := by
    rw [wfBlock.eq_def]
    simp [S, hpara]
  unfold addQuoteLine
  rcases hlast : ns.getLast? with _ | last
  · simp [List.all_append, hns, hnew]
  · by_cases hbt : (truthy last && hasType last "blockquote") = true
    · simp only [hbt, if_true, if_pos rfl]
      obtain ⟨ns', rfl⟩ := List.getLast?_eq_some_iff.mp hlast
      rw [Bool.and_eq_true] at hbt
      rw [List.all_append, Bool.and_eq_true] at hns
      obtain ⟨ps, heq, hne, hall⟩ :=
        wfBlock_quote_shape last (by simpa using hns.2) hbt.2
      subst heq
      rw [List.dropLast_concat]
      rw [List.all_append, Bool.and_eq_true]
      refine ⟨hns.1, ?_⟩
      simp only [pushContent, getField, setField, S]
      have hwf2 : wfBlock (.obj [("type", S "blockquote"),
          ("content", .arr (ps ++ [mkParagraph c]))]) = true := by
        rw [wfBlock.eq_def]
        simp [S, List.all_append, hall, hpara]
      simpa [S] using hwf2
    · have hbt' : (truthy last && hasType last "blockquote") = false := by
        simpa using hbt
      simp only [hbt', Bool.false_eq_true, if_false]
      simp [List.all_append, hns, hnew]

/-- Legacy heading levels come from the `[1-6]` character class. -/
theorem matchJiraHeading_level (line : List Char) (lvl : Nat)
    (txt : List Char) (h : matchJiraHeading line = some (lvl, txt)) :
    1 ≤ lvl ∧ lvl ≤ 6 := by
  rw [matchJiraHeading.eq_def] at h
  split at h
  · rename_i d rest
    split_ifs at h with hd
    simp only [List.mem_cons, List.not_mem_nil, or_false] at hd
    rcases hd with rfl | rfl | rfl | rfl | rfl | rfl <;>
      (split at h <;> (try split at h) <;> simp_all) <;> omega
  · exact Option.noConfusion h

/-- Markdown heading levels are the hash-run length, between 1 and 6. -/
theorem matchMdHeading_level (line : List Char) (lvl : Nat)
    (txt : List Char) (h : matchMdHeading line = some (lvl, txt)) :
    1 ≤ lvl ∧ lvl ≤ 6 := by
  unfold matchMdHeading at h
  split at h
  · exact Option.noConfusion h
  · rename_i hashes rest
    split_ifs at h with h7
    split at h <;> (try split at h) <;> simp_all <;>
      (have hlen := List.length_pos.mpr hashes; omega)

/-- Headings emitted by the parser are well-formed. -/
theorem wfBlock_mkHeading (lvl : Nat) (c : List JVal)
    (h1 : 1 ≤ lvl) (h6 : lvl ≤ 6) (hc : c.all wfInline = true) :
    wfBlock (mkHeading lvl c) = true := by
  simp [wfBlock, mkHeading, S, hc]
  omega

/-- Paragraphs emitted by the parser are well-formed. -/
theorem wfBlock_mkParagraph (c : List JVal) (hc : c.all wfInline = true) :
    wfBlock (mkParagraph c) = true := by
  simp [wfBlock, mkParagraph, S, hc]

/-- Code blocks emitted by the parser are well-formed for every captured
text and language tag. -/
theorem wfBlock_mkCodeBlock (t : List Char) (lang : Option (List Char)) :
    wfBlock (mkCodeBlock t lang) = true := by
  cases t with
  | nil =>
    cases lang with
    | none => rfl
    | some l => cases l <;> rfl
  | cons a b =>
    cases lang with
    | none => rfl
    | some l => cases l <;> rfl

/-- Every block the line loop emits is well-formed, whatever the input
lines. -/
theorem buildNodesF_wf (fuel : Nat) :
    ∀ (lines : List (List Char)) (acc : List JVal),
      acc.all wfBlock = true →
      (buildNodesF fuel lines acc).all wfBlock = true := by
  induction fuel with
  | zero => intro lines acc hacc; cases lines <;> simpa [buildNodesF] using hacc
  | succ f ih =>
    intro lines acc hacc
    cases lines with
    | nil => simpa [buildNodesF] using hacc
    | cons rawLine rest =>
      simp only [buildNodesF]
      by_cases hbl : (trimChars rawLine).isEmpty = true
      · simp only [hbl, if_true, if_pos rfl]
        exact ih rest acc hacc
      have hbl' : (trimChars rawLine).isEmpty = false := by
        simpa using hbl
      simp only [hbl', Bool.false_eq_true, if_false]
      rcases hjh : matchJiraHeading (trimChars rawLine) with _ | ⟨lvl, txt⟩
      rotate_left 1
      · simp only [hjh]
        refine ih rest _ ?_
        rw [List.all_append, Bool.and_eq_true]
        obtain ⟨hl1, hl6⟩ := matchJiraHeading_level _ _ _ hjh
        exact ⟨hacc, by
          simpa using wfBlock_mkHeading lvl (parseInlineContent txt) hl1 hl6
            (parseInlineContent_wf txt)⟩
      simp only [hjh]
      rcases hmh : matchMdHeading (trimChars rawLine) with _ | ⟨lvl, txt⟩
      rotate_left 1
      · simp only [hmh]
        refine ih rest _ ?_
        rw [List.all_append, Bool.and_eq_true]
        obtain ⟨hl1, hl6⟩ := matchMdHeading_level _ _ _ hmh
        exact ⟨hacc, by
          simpa using wfBlock_mkHeading lvl (parseInlineContent txt) hl1 hl6
            (parseInlineContent_wf txt)⟩
      simp only [hmh]
      cases hb : (("* ".data).isPrefixOf (trimChars rawLine)
          || ("- ".data).isPrefixOf (trimChars rawLine))
      rotate_left 1
      · simp only [hb, if_true, if_pos rfl]
        exact ih rest _ (addBulletItem_wf acc _ hacc (parseInlineContent_wf _))
      simp only [hb, Bool.false_eq_true, if_false]
      rcases hor : matchOrdered (trimChars rawLine) with _ | txt
      rotate_left 1
      · simp only [hor]
        exact ih rest _ (addOrderedItem_wf acc _ hacc (parseInlineContent_wf _))
      simp only [hor]
      cases hq : (("> ".data).isPrefixOf (trimChars rawLine))
      rotate_left 1
      · simp only [hq, if_true, if_pos rfl]
        exact ih rest _ (addQuoteLine_wf acc _ hacc (parseInlineContent_wf _))
      simp only [hq, Bool.false_eq_true, if_false]
      cases hr : (trimChars rawLine == "----".data
          || trimChars rawLine == "---".data)
      rotate_left 1
      · simp only [hr, if_true, if_pos rfl]
        refine ih rest _ ?_
        rw [List.all_append, Bool.and_eq_true]
        exact ⟨hacc, by decide⟩
      simp only [hr, Bool.false_eq_true, if_false]
      cases hf : (("```".data).isPrefixOf (trimChars rawLine))
      rotate_left 1
      · simp only [hf, if_true, if_pos rfl]
        refine ih _ _ ?_
        rw [List.all_append, Bool.and_eq_true]
        exact ⟨hacc, by simpa using wfBlock_mkCodeBlock _ _⟩
      simp only [hf, Bool.false_eq_true, if_false]
      refine ih rest _ ?_
      rw [List.all_append, Bool.and_eq_true]
      exact ⟨hacc, by
        simpa using wfBlock_mkParagraph _ (parseInlineContent_wf _)⟩

/-- C8: the parse direction is total — every input value, string or not,
produces a well-formed document (a `doc` root at version 1 holding a
non-empty array of well-formed blocks), with no error path. -/
theorem c8_parse_total_wellFormed (v : JVal) :
    wellFormedDoc (createADFDocument v) = true := by
  have hempty : wellFormedDoc (mkDoc [emptyParagraph]) = true := rfl
  cases v with
  | str s =>
    by_cases hs : s.isEmpty = true
    · simp [createADFDocument, hs, hempty]
    · have hs' : s.isEmpty = false := by simpa using hs
      simp only [createADFDocument, hs', Bool.false_eq_true, if_false]
      by_cases hn : (buildNodes (splitLines s) []).isEmpty = true
      · simp [hn, hempty]
      · have hn' : (buildNodes (splitLines s) []).isEmpty = false := by
          simpa using hn
        simp only [hn', Bool.false_eq_true, if_false]
        have hwf : (buildNodes (splitLines s) []).all wfBlock = true :=
          buildNodesF_wf (splitLines s).length (splitLines s) [] rfl
        rw [wellFormedDoc.eq_def]
        simp [mkDoc, S, hn', hwf]
  | null => exact hempty
  | num n => exact hempty
  | bool b => exact hempty
  | arr l => exact hempty
  | obj fs => exact hempty

end McpJira
